import Mathlib

/-!
Shallow embedding of the plagiarism-detection core of the repository.

Sources embedded here:
* `src/src/plagiarism/analyzer.py` — `compute_fingerprints`, `winnow_fingerprints`,
  `index_fingerprints`/`token_similarity`, `ast_similarity`, `find_matching_regions`,
  `merge_adjacent_matches`, `analyze_plagiarism`.
* `src/worker/redis_cache.py` — `PlagiarismCache.calculate_ast_similarity`,
  `PlagiarismCache.find_matching_regions`, `PlagiarismCache.merge_adjacent_matches`,
  `PlagiarismCache.cache_fingerprints`.
* `src/worker/inverted_index.py` — `InvertedIndex.find_candidate_files`.
* `src/worker/worker.py` — the similarity/match-gating part of `process_pair`.

Modelling conventions:
* Tokenization and AST extraction go through tree-sitter and the filesystem; the
  embedding therefore takes the token stream and the AST hash list of a file as
  inputs (the pipeline downstream of parsing is embedded exactly).
* `stable_hash` is a SHA-1-truncated digest of a string; it is modelled as an
  arbitrary function `String → ℕ` passed as a parameter (the theorems hold for
  every such function, in particular for the actual digest).
* Python float arithmetic on similarity scores is modelled by exact rational
  arithmetic (`ℚ`); Python `%` on ints with a positive modulus agrees with
  `Int.emod`, and `int(n * 0.15)` for `n : ℕ` agrees with `3 * n / 20` in ℕ
  (the double closest to 0.15 is below 3/20, but the product always rounds back
  to the exact value whenever `3 * n / 20` is about to lose an integer).
* Python's `sorted`/`list.sort` (stable) is modelled by a stable insertion sort
  on the same key.
* Python set iteration order is unspecified; `find_matching_regions` iterates
  the common hashes in first-appearance order here.  All claims below depend
  only on properties invariant under that choice.
-/

namespace Plagiarism

/-- A leaf token from `tokenize_with_tree_sitter`: `(node.type, start_point, end_point)`. -/
structure Token where
  typ : String
  startP : Int × Int
  endP : Int × Int
deriving DecidableEq

def dummyToken : Token := ⟨"", (0, 0), (0, 0)⟩

/-- A fingerprint dict `{'hash': h, 'start': p, 'end': q}` from `compute_fingerprints`. -/
structure Fingerprint where
  hash : Int
  start : Int × Int
  stop : Int × Int
deriving DecidableEq

def dummyFp : Fingerprint := ⟨0, (0, 0), (0, 0)⟩

/-- The rolling loop of `compute_fingerprints` (analyzer.py lines 79-86): at each
step the token `k` positions back is removed and the new token is added, both
reductions taken `% m` exactly as in the Python source. -/
def roll (stable_hash : String → Nat) (base m power : Int) :
    Int → List Token → List Token → List Fingerprint
  | h, o :: os, t :: ts =>
    let h1 := (h - (stable_hash o.typ : Int) * power) % m
    let h2 := (h1 * base + (stable_hash t.typ : Int)) % m
    { hash := h2, start := (os.headD dummyToken).startP, stop := t.endP }
      :: roll stable_hash base m power h2 os ts
  | _, _, _ => []

/-- `compute_fingerprints(tokens, k, base, mod)` (analyzer.py lines 62-88). -/
def compute_fingerprints (stable_hash : String → Nat) (k : Nat) (base m : Int)
    (tokens : List Token) : List Fingerprint :=
  if tokens.length < k then []
  else
    let power := base ^ (k - 1) % m
    let h0 := (tokens.take k).foldl (fun h t => (h * base + (stable_hash t.typ : Int)) % m) 0
    { hash := h0, start := (tokens.headD dummyToken).startP,
      stop := (tokens.getD (k - 1) dummyToken).endP }
      :: roll stable_hash base m power h0 tokens (tokens.drop k)

/-- Python's `min(window, key=lambda x: x['hash'])`: the FIRST fingerprint of
minimal hash (ties keep the earlier element). -/
def min_by_hash (fps : List Fingerprint) : Fingerprint :=
  fps.foldl (fun a b => if b.hash < a.hash then b else a) (fps.headD dummyFp)

/-- `winnow_fingerprints(fingerprints, window_size)` (analyzer.py lines 90-97).
Python's `range(len(fingerprints) - window_size + 1)` is empty when the length
is below the window size; in ℕ this is `length + 1 - window_size`. -/
def winnow_fingerprints (fps : List Fingerprint) (window_size : Nat) : List Fingerprint :=
  (List.range (fps.length + 1 - window_size)).foldl
    (fun winnowed i =>
      let min_fp := min_by_hash ((fps.drop i).take window_size)
      match winnowed.getLast? with
      | none => winnowed ++ [min_fp]
      | some last => if min_fp.hash = last.hash then winnowed else winnowed ++ [min_fp])
    []

/-- `len(index[h])` for the index built by `index_fingerprints` (analyzer.py
lines 99-103): the number of fingerprints with the given hash. -/
def hash_count (fps : List Fingerprint) (h : Int) : Nat :=
  (fps.filter (fun fp => fp.hash = h)).length

/-- The key set of `index_fingerprints fps`, in first-appearance order. -/
def hash_keys (fps : List Fingerprint) : List Int :=
  (fps.map (fun fp => fp.hash)).dedup

/-- `token_similarity(index_a, index_b)` (analyzer.py lines 105-115), expressed
on the fingerprint lists underlying the two indexes: `Ta` is the total number
of fingerprints, `Sa` the number of them whose hash is common to both files. -/
def token_similarity (fpsA fpsB : List Fingerprint) : ℚ :=
  let common := (hash_keys fpsA).filter (fun h => h ∈ hash_keys fpsB)
  if common = [] then 0
  else
    let sa := (common.map (hash_count fpsA)).sum
    let sb := (common.map (hash_count fpsB)).sum
    ((sa : ℚ) + (sb : ℚ)) / ((fpsA.length : ℚ) + (fpsB.length : ℚ))

/-- `ast_similarity(hashes_a, hashes_b)` (analyzer.py lines 158-162):
`Counter` intersection/union are multiset intersection (pointwise min) and
union (pointwise max). -/
def ast_similarity (hashes_a hashes_b : List Nat) : ℚ :=
  let ca : Multiset Nat := (hashes_a : Multiset Nat)
  let cb : Multiset Nat := (hashes_b : Multiset Nat)
  let intersection := Multiset.card (ca ∩ cb)
  let union := Multiset.card (ca ∪ cb)
  if union = 0 then 0 else (intersection : ℚ) / (union : ℚ)

/-- One side of a region match dict. -/
structure Region where
  start_line : Int
  start_col : Int
  end_line : Int
  end_col : Int
deriving DecidableEq

/-- A match dict `{'file1': …, 'file2': …}`. -/
structure RMatch where
  file1 : Region
  file2 : Region
deriving DecidableEq

def region_of (fp : Fingerprint) : Region :=
  ⟨fp.start.1, fp.start.2, fp.stop.1, fp.stop.2⟩

/-- `find_matching_regions(index_a, index_b)` (analyzer.py lines 168-186):
for each common hash, `zip` pairs the two occurrence lists index by index. -/
def find_matching_regions (fpsA fpsB : List Fingerprint) : List RMatch :=
  ((hash_keys fpsA).filter (fun h => h ∈ hash_keys fpsB)).flatMap
    (fun h => List.zipWith (fun a b => ⟨region_of a, region_of b⟩)
      (fpsA.filter (fun fp => fp.hash = h)) (fpsB.filter (fun fp => fp.hash = h)))

/-- `redis_cache.find_matching_regions` (redis_cache.py lines 356-411): unlike
the analyzer it takes the full cross product of the two occurrence lists. -/
def find_matching_regions_cache (fpsA fpsB : List Fingerprint) : List RMatch :=
  ((hash_keys fpsA).filter (fun h => h ∈ hash_keys fpsB)).flatMap
    (fun h => (fpsA.filter (fun fp => fp.hash = h)).flatMap
      (fun a => (fpsB.filter (fun fp => fp.hash = h)).map
        (fun b => ⟨region_of a, region_of b⟩)))

/-- Sort key `(m['file1']['start_line'], m['file1']['start_col'])`. -/
def match_key (m : RMatch) : Int × Int :=
  (m.file1.start_line, m.file1.start_col)

/-- Lexicographic comparison of sort keys (what Python's tuple `<=` does). -/
def match_le (a b : RMatch) : Bool :=
  decide ((match_key a).1 < (match_key b).1 ∨
    ((match_key a).1 = (match_key b).1 ∧ (match_key a).2 ≤ (match_key b).2))

/-- Stable insertion into a sorted list (model of Python's stable sort). -/
def insert_sorted (m : RMatch) : List RMatch → List RMatch
  | [] => [m]
  | x :: xs => if match_le m x then m :: x :: xs else x :: insert_sorted m xs

/-- Python's stable `sorted(matches, key=…)`, modelled by stable insertion sort. -/
def sort_matches : List RMatch → List RMatch
  | [] => []
  | x :: xs => insert_sorted x (sort_matches xs)

/-- The adjacency-gap test of `merge_adjacent_matches` on ONE side:
`cur.start_line <= last.end_line + max_line_gap and
 cur.start_col - last.end_col <= max_col_gap`. -/
def fits_gap (max_line_gap max_col_gap : Int) (last cur : Region) : Bool :=
  decide (cur.start_line ≤ last.end_line + max_line_gap ∧
    cur.start_col - last.end_col ≤ max_col_gap)

/-- In-place extension of the previous region: both sides' endpoints become the
componentwise `max`, the start points are unchanged. -/
def extend_match (last m : RMatch) : RMatch :=
  { file1 := { last.file1 with
      end_line := max last.file1.end_line m.file1.end_line,
      end_col := max last.file1.end_col m.file1.end_col },
    file2 := { last.file2 with
      end_line := max last.file2.end_line m.file2.end_line,
      end_col := max last.file2.end_col m.file2.end_col } }

/-- One iteration of the merge loop; the accumulator is kept reversed so that
`merged[-1]` is its head.  The gap test reads SIDE `file1` ONLY, exactly as in
analyzer.py lines 201-204 and redis_cache.py lines 512-515. -/
def merge_step (max_line_gap max_col_gap : Int) (acc : List RMatch) (m : RMatch) :
    List RMatch :=
  match acc with
  | last :: rest =>
    if fits_gap max_line_gap max_col_gap last.file1 m.file1
    then extend_match last m :: rest
    else m :: last :: rest
  | [] => [m]

/-- `merge_adjacent_matches(matches, max_line_gap=1, max_col_gap=5)`
(analyzer.py lines 188-211 and, identically, redis_cache.py lines 483-522).
The Python parameter `matches` is a reserved word in Lean, hence `ms`. -/
def merge_adjacent_matches (ms : List RMatch) : List RMatch :=
  match sort_matches ms with
  | [] => []
  | first :: rest => (rest.foldl (merge_step 1 5) [first]).reverse

/-- `analyze_plagiarism` (analyzer.py lines 214-247) downstream of parsing:
the token streams and AST hash lists of the two files are the inputs; the
thresholds are the defaults `token_threshold=0.15`, `ast_threshold=0.30`. -/
def analyze_plagiarism (stable_hash : String → Nat) (tokens1 tokens2 : List Token)
    (ast1 ast2 : List Nat) : ℚ × List RMatch :=
  let fps1 := winnow_fingerprints (compute_fingerprints stable_hash 6 257 (10 ^ 9 + 7) tokens1) 5
  let fps2 := winnow_fingerprints (compute_fingerprints stable_hash 6 257 (10 ^ 9 + 7) tokens2) 5
  let tok_sim := token_similarity fps1 fps2
  if tok_sim < 15 / 100 then (0, [])
  else
    let ast_sim := ast_similarity ast1 ast2
    if ast_sim < 30 / 100 then (ast_sim, [])
    else (ast_sim, merge_adjacent_matches (find_matching_regions fps1 fps2))

/-- `PlagiarismCache.calculate_ast_similarity` (redis_cache.py lines 321-354)
on the two retrieved AST hash lists (`get_ast_hashes` retrieval and the
connection guard are I/O and elided): note `set(ast_a)`/`set(ast_b)` — this is
a SET Jaccard, multiplicities are dropped. -/
def calculate_ast_similarity (ast_a ast_b : List Nat) : ℚ :=
  if ast_a = [] ∨ ast_b = [] then 0
  else
    let set_a := ast_a.toFinset
    let set_b := ast_b.toFinset
    let intersection := (set_a ∩ set_b).card
    let union := (set_a ∪ set_b).card
    if union = 0 then 0 else (intersection : ℚ) / (union : ℚ)

/-- The similarity/match part of `worker.process_pair` (worker.py lines
340-356): `matches_data` is assembled iff the Redis AST similarity is
`>= 0.15`; inputs are the cached AST hash lists and fingerprint lists of the
two files. -/
def process_pair_result (astA astB : List Nat) (fpsA fpsB : List Fingerprint) :
    ℚ × List RMatch :=
  let s := calculate_ast_similarity astA astB
  if 15 / 100 ≤ s
  then (s, merge_adjacent_matches (find_matching_regions_cache fpsA fpsB))
  else (s, [])

/-- Union of `inv[fp.hash]` over the query fingerprints: the key set of the
`overlap_counter` built in `find_candidate_files`. -/
def all_candidates (inv : Int → Finset String) (q : List Fingerprint) : Finset String :=
  q.foldl (fun acc fp => acc ∪ inv fp.hash) ∅

/-- `overlap_counter[c]` after the loop of `find_candidate_files`
(inverted_index.py lines 89-101): one increment per query fingerprint whose
hash set contains `c`. -/
def overlap_count (inv : Int → Finset String) (q : List Fingerprint) (c : String) : Nat :=
  (q.filter (fun fp => c ∈ inv fp.hash)).length

/-- `max(1, int(total_query_fingerprints * 0.15))` (inverted_index.py line 105)
with the default threshold; `int(n * 0.15) = 3 * n / 20` in ℕ. -/
def min_overlap (q : List Fingerprint) : Nat :=
  max 1 (3 * q.length / 20)

/-- `InvertedIndex.find_candidate_files` (inverted_index.py lines 72-116); the
Redis lookups `smembers(inv:hash:lang:h)` are abstracted as `inv : Int → Finset String`. -/
def find_candidate_files (inv : Int → Finset String) (q : List Fingerprint) : Finset String :=
  if q = [] then ∅
  else (all_candidates inv q).filter (fun c => min_overlap q ≤ overlap_count inv q c)

/-- A value stored under a plagiarism cache key. -/
inductive CacheVal where
  | fpVal (fps : List Fingerprint)
  | astVal (ast : List Nat)
  | tokVal (toks : List Token)
deriving DecidableEq

/-- The Redis keyspace, as a partial map from keys to stored values. -/
def Store := String → Option CacheVal

def store_set (st : Store) (k : String) (v : CacheVal) : Store :=
  fun k2 => if k2 = k then some v else st k2

def fp_key (file_hash : String) : String := "plagiarism:fp:" ++ file_hash

def ast_hashes_key (file_hash : String) : String := "plagiarism:ast:" ++ file_hash

def tokens_key (file_hash : String) : String := "plagiarism:tokens:" ++ file_hash

/-- `PlagiarismCache.cache_fingerprints` (redis_cache.py lines 82-152): the
connection guard, the empty-AST guard, then one pipelined `setex` per key
(the pipeline `execute` applies all queued writes; serialization to JSON is
modelled by storing the values themselves). -/
def cache_fingerprints (connected : Bool) (st : Store) (file_hash : String)
    (fingerprints : List Fingerprint) (ast_hashes : List Nat)
    (tokens : Option (List Token)) : Bool × Store :=
  if !connected then (false, st)
  else if ast_hashes = [] then (false, st)
  else
    let st1 := store_set st (fp_key file_hash) (.fpVal fingerprints)
    let st2 := store_set st1 (ast_hashes_key file_hash) (.astVal ast_hashes)
    let st3 := match tokens with
      | some t => store_set st2 (tokens_key file_hash) (.tokVal t)
      | none => st2
    (true, st3)

/-! Specification-level definitions, used to state the claims against the
embedded code, plus the concrete inputs used by counterexamples and witnesses. -/

/-- Horner evaluation of the window polynomial, without intermediate reduction:
`foldl (fun h t => h * base + σ t) 0`. -/
def poly_horner (stable_hash : String → Nat) (base : Int) (w : List Token) : Int :=
  w.foldl (fun h t => h * base + (stable_hash t.typ : Int)) 0

/-- The direct polynomial hash of the claim: `Σ_{j<k} σ(t_{i+j}) · base^(k-1-j)`. -/
def window_sum (stable_hash : String → Nat) (base : Int) (tokens : List Token)
    (i k : Nat) : Int :=
  ∑ j ∈ Finset.range k,
    (stable_hash (tokens.getD (i + j) dummyToken).typ : Int) * base ^ (k - 1 - j)

/-- The minimal hash occurring in a window (`0` for the empty window). -/
def window_min_hash (w : List Fingerprint) : Int :=
  ((w.map (fun fp => fp.hash)).min?).getD 0

/-- The LEFTMOST fingerprint of minimal hash in a window. -/
def leftmost_min (w : List Fingerprint) : Fingerprint :=
  (w.filter (fun fp => fp.hash = window_min_hash w)).headD dummyFp

/-- The RIGHTMOST fingerprint of minimal hash in a window (the tie-break the
claim asserts). -/
def rightmost_min (w : List Fingerprint) : Fingerprint :=
  (w.filter (fun fp => fp.hash = window_min_hash w)).getLastD dummyFp

/-- Winnowing as the claim words it, parameterized by the selection rule:
in each sliding window select a fingerprint, emit it iff its hash differs from
the last emitted one. -/
def winnow_with (select : List Fingerprint → Fingerprint) (fps : List Fingerprint)
    (window_size : Nat) : List Fingerprint :=
  (List.range (fps.length + 1 - window_size)).foldl
    (fun winnowed i =>
      let sel := select ((fps.drop i).take window_size)
      match winnowed.getLast? with
      | none => winnowed ++ [sel]
      | some last => if sel.hash = last.hash then winnowed else winnowed ++ [sel])
    []

/-- Five fingerprints with equal hashes and distinct anchors: one winnowing
window full of tied minima. -/
def exTies : List Fingerprint :=
  [⟨7, (0, 0), (0, 1)⟩, ⟨7, (1, 0), (1, 1)⟩, ⟨7, (2, 0), (2, 1)⟩,
   ⟨7, (3, 0), (3, 1)⟩, ⟨7, (4, 0), (4, 1)⟩]

/-- A region match used by the merge counterexample and witness. -/
def exM1 : RMatch := ⟨⟨0, 0, 0, 10⟩, ⟨0, 0, 0, 10⟩⟩

/-- A second match: adjacent to `exM1` on side `file1` (gap 1 column) but far
away on side `file2` (100 lines below). -/
def exM2 : RMatch := ⟨⟨0, 11, 0, 20⟩, ⟨100, 0, 100, 5⟩⟩

/-- An inverted index with a single entry: fingerprint hash `1` occurs in file
`"f7"`. -/
def exInv : Int → Finset String := fun h => if h = 1 then {"f7"} else ∅

/-- A query of 10 fingerprints with distinct hashes `1..10`. -/
def exQuery : List Fingerprint :=
  (List.range 10).map (fun i => ⟨(i : Int) + 1, (0, 0), (0, 1)⟩)

/-- A token stream of ten identical leaves (enough for winnowing to emit). -/
def exTokensTen : List Token :=
  (List.range 10).map (fun i => ⟨"a", ((i : Int), 0), ((i : Int), 1)⟩)

/-! Helper lemmas shared by several claims. -/

theorem multiset_inter_self (s : Multiset Nat) : s ∩ s = s := by
  ext a; rw [Multiset.count_inter]; exact min_self _

theorem multiset_union_self (s : Multiset Nat) : s ∪ s = s := by
  ext a; rw [Multiset.count_union]; exact max_self _

/-- Claim C10: calling `cache_fingerprints` with an empty AST hash list returns
`False` and leaves every key of the store untouched — neither the fingerprints
key nor the AST key nor the tokens key is created or modified; the rejection
happens before any write is queued. -/
theorem cache_fingerprints_empty_ast_noop (connected : Bool) (st : Store)
    (file_hash : String) (fps : List Fingerprint) (tokens : Option (List Token)) :
    (cache_fingerprints connected st file_hash fps [] tokens).1 = false ∧
    ∀ k, (cache_fingerprints connected st file_hash fps [] tokens).2 k = st k := by
  cases connected <;> simp [cache_fingerprints]

/-- Claim C9: a token stream with fewer than `K = 6` tokens yields zero
fingerprints, and the token similarity of any pair involving such a file is 0,
whichever side the short file is on. -/
theorem short_file_zero_fingerprints (stable_hash : String → Nat)
    (tokens : List Token) (fpsB : List Fingerprint) (h : tokens.length < 6) :
    compute_fingerprints stable_hash 6 257 (10 ^ 9 + 7) tokens = [] ∧
    token_similarity
      (winnow_fingerprints (compute_fingerprints stable_hash 6 257 (10 ^ 9 + 7) tokens) 5)
      fpsB = 0 ∧
    token_similarity fpsB
      (winnow_fingerprints (compute_fingerprints stable_hash 6 257 (10 ^ 9 + 7) tokens) 5)
      = 0 := by
  have hc : compute_fingerprints stable_hash 6 257 (10 ^ 9 + 7) tokens = [] := by
    simp [compute_fingerprints, h]
  have hw : winnow_fingerprints ([] : List Fingerprint) 5 = [] := by
    simp [winnow_fingerprints]
  refine ⟨hc, ?_, ?_⟩
  · rw [hc, hw]; simp [token_similarity, hash_keys]
  · rw [hc, hw]; simp [token_similarity, hash_keys]

/-- Witness for C9 at a concrete one-token stream. -/
theorem short_file_zero_fingerprints_witness :
    ([dummyToken] : List Token).length < 6 ∧
    (compute_fingerprints (fun s => s.length) 6 257 (10 ^ 9 + 7) [dummyToken] = [] ∧
     token_similarity
       (winnow_fingerprints
         (compute_fingerprints (fun s => s.length) 6 257 (10 ^ 9 + 7) [dummyToken]) 5)
       [dummyFp] = 0 ∧
     token_similarity [dummyFp]
       (winnow_fingerprints
         (compute_fingerprints (fun s => s.length) 6 257 (10 ^ 9 + 7) [dummyToken]) 5)
       = 0) :=
  ⟨by decide,
   short_file_zero_fingerprints (fun s => s.length) [dummyToken] [dummyFp] (by decide)⟩

/-- Claim C7: when the token-stage similarity is below `τ_tok = 0.15`,
`analyze_plagiarism` returns similarity `0` with an empty match list, and the
result does not depend on the AST hash inputs at all (the AST stage is not
entered). -/
theorem token_gate_short_circuit (stable_hash : String → Nat)
    (tokens1 tokens2 : List Token) (ast1 ast2 ast1' ast2' : List Nat)
    (h : token_similarity
        (winnow_fingerprints (compute_fingerprints stable_hash 6 257 (10 ^ 9 + 7) tokens1) 5)
        (winnow_fingerprints (compute_fingerprints stable_hash 6 257 (10 ^ 9 + 7) tokens2) 5)
        < 15 / 100) :
    analyze_plagiarism stable_hash tokens1 tokens2 ast1 ast2 = (0, []) ∧
    analyze_plagiarism stable_hash tokens1 tokens2 ast1 ast2 =
      analyze_plagiarism stable_hash tokens1 tokens2 ast1' ast2' := by
  have h1 : analyze_plagiarism stable_hash tokens1 tokens2 ast1 ast2 = (0, []) := by
    simp only [analyze_plagiarism]
    rw [if_pos h]
  have h2 : analyze_plagiarism stable_hash tokens1 tokens2 ast1' ast2' = (0, []) := by
    simp only [analyze_plagiarism]
    rw [if_pos h]
  exact ⟨h1, h1.trans h2.symm⟩

/-- Witness for C7 at two empty token streams (token similarity 0). -/
theorem token_gate_short_circuit_witness :
    (token_similarity
        (winnow_fingerprints (compute_fingerprints (fun s => s.length) 6 257 (10 ^ 9 + 7) []) 5)
        (winnow_fingerprints (compute_fingerprints (fun s => s.length) 6 257 (10 ^ 9 + 7) []) 5)
        < 15 / 100) ∧
    (analyze_plagiarism (fun s => s.length) [] [] [1] [2] = (0, []) ∧
     analyze_plagiarism (fun s => s.length) [] [] [1] [2] =
       analyze_plagiarism (fun s => s.length) [] [] [3] [4]) := by
  have h0 : token_similarity
      (winnow_fingerprints (compute_fingerprints (fun s : String => s.length) 6 257 (10 ^ 9 + 7) []) 5)
      (winnow_fingerprints (compute_fingerprints (fun s : String => s.length) 6 257 (10 ^ 9 + 7) []) 5)
      = 0 := rfl
  have h : token_similarity
      (winnow_fingerprints (compute_fingerprints (fun s : String => s.length) 6 257 (10 ^ 9 + 7) []) 5)
      (winnow_fingerprints (compute_fingerprints (fun s : String => s.length) 6 257 (10 ^ 9 + 7) []) 5)
      < 15 / 100 := by rw [h0]; norm_num
  exact ⟨h, token_gate_short_circuit (fun s => s.length) [] [] [1] [2] [3] [4] h⟩

/-- Counterexample to claim C2 as stated: on `A = [1,1]`, `B = [1]` the
in-process multiset Jaccard is `1/2` while the Redis path computes the SET
Jaccard `1`; the two paths disagree. -/
theorem ast_similarity_redis_mismatch :
    ast_similarity [1, 1] [1] = 1 / 2 ∧ calculate_ast_similarity [1, 1] [1] = 1 ∧
    ast_similarity [1, 1] [1] ≠ calculate_ast_similarity [1, 1] [1] := by
  have hi : Multiset.card ((↑([1, 1] : List ℕ) : Multiset ℕ) ∩ ↑([1] : List ℕ)) = 1 := rfl
  have hu : Multiset.card ((↑([1, 1] : List ℕ) : Multiset ℕ) ∪ ↑([1] : List ℕ)) = 2 := rfl
  have hfi : (([1, 1] : List ℕ).toFinset ∩ ([1] : List ℕ).toFinset).card = 1 := rfl
  have hfu : (([1, 1] : List ℕ).toFinset ∪ ([1] : List ℕ).toFinset).card = 1 := rfl
  have h1 : ast_similarity [1, 1] [1] = 1 / 2 := by
    simp only [ast_similarity, hi, hu]
    norm_num
  have h2 : calculate_ast_similarity [1, 1] [1] = 1 := by
    simp only [calculate_ast_similarity, hfi, hfu]
    rw [if_neg (show ¬(([1, 1] : List ℕ) = [] ∨ ([1] : List ℕ) = []) by simp)]
    norm_num
  refine ⟨h1, h2, ?_⟩
  rw [h1, h2]
  norm_num

/-- Claim C2 (amended): on duplicate-free AST hash lists the Redis set-based
Jaccard of `calculate_ast_similarity` agrees with the in-process multiset
Jaccard of `ast_similarity`; with repeated hashes they diverge, because the
Redis path drops multiplicities. -/
theorem ast_similarity_eq_redis_of_nodup (a b : List Nat)
    (ha : a.Nodup) (hb : b.Nodup) :
    ast_similarity a b = calculate_ast_similarity a b := by
  by_cases hea : a = []
  · subst hea
    simp only [ast_similarity, calculate_ast_similarity]
    simp [Multiset.zero_inter]
  · by_cases heb : b = []
    · subst heb
      simp only [ast_similarity, calculate_ast_similarity]
      simp [Multiset.inter_zero]
    · have hna : (↑a : Multiset Nat).Nodup := Multiset.coe_nodup.mpr ha
      have hnb : (↑b : Multiset Nat).Nodup := Multiset.coe_nodup.mpr hb
      have hi : Multiset.card ((↑a : Multiset Nat) ∩ ↑b) = (a.toFinset ∩ b.toFinset).card := by
        rw [← Multiset.dedup_eq_self.mpr (Multiset.Nodup.inter_left _ hna),
          ← Multiset.card_toFinset, Multiset.toFinset_inter,
          List.toFinset_coe, List.toFinset_coe]
      have hu : Multiset.card ((↑a : Multiset Nat) ∪ ↑b) = (a.toFinset ∪ b.toFinset).card := by
        rw [← Multiset.dedup_eq_self.mpr (Multiset.nodup_union.mpr ⟨hna, hnb⟩),
          ← Multiset.card_toFinset, Multiset.toFinset_union,
          List.toFinset_coe, List.toFinset_coe]
      have hguard : ¬(a = [] ∨ b = []) := by simp [hea, heb]
      simp only [ast_similarity, calculate_ast_similarity]
      rw [hi, hu, if_neg hguard]

/-- Witness for the amended C2 at concrete duplicate-free lists. -/
theorem ast_similarity_eq_redis_of_nodup_witness :
    ([1, 2] : List Nat).Nodup ∧ ([2, 3] : List Nat).Nodup ∧
    ast_similarity [1, 2] [2, 3] = calculate_ast_similarity [1, 2] [2, 3] :=
  ⟨by decide, by decide,
   ast_similarity_eq_redis_of_nodup [1, 2] [2, 3] (by decide) (by decide)⟩

theorem mem_all_candidates (inv : Int → Finset String) (q : List Fingerprint)
    (c : String) :
    c ∈ all_candidates inv q ↔ ∃ fp ∈ q, c ∈ inv fp.hash := by
  have key : ∀ (l : List Fingerprint) (init : Finset String),
      c ∈ l.foldl (fun acc fp => acc ∪ inv fp.hash) init ↔
        c ∈ init ∨ ∃ fp ∈ l, c ∈ inv fp.hash := by
    intro l
    induction l with
    | nil => intro init; simp
    | cons a t ih =>
      intro init
      simp only [List.foldl_cons, ih, Finset.mem_union, List.mem_cons]
      constructor
      · rintro ((h | h) | ⟨fp, hfp, hc⟩)
        · exact Or.inl h
        · exact Or.inr ⟨a, Or.inl rfl, h⟩
        · exact Or.inr ⟨fp, Or.inr hfp, hc⟩
      · rintro (h | ⟨fp, (rfl | hfp), hc⟩)
        · exact Or.inl (Or.inl h)
        · exact Or.inl (Or.inr hc)
        · exact Or.inr ⟨fp, hfp, hc⟩
  rw [all_candidates, key]
  simp

theorem mem_all_candidates_of_overlap (inv : Int → Finset String)
    (q : List Fingerprint) (c : String) (h : 1 ≤ overlap_count inv q c) :
    c ∈ all_candidates inv q := by
  rw [mem_all_candidates]
  have hne : q.filter (fun fp => c ∈ inv fp.hash) ≠ [] := by
    intro hnil
    rw [overlap_count, hnil] at h
    simp at h
  obtain ⟨x, hx⟩ := List.exists_mem_of_ne_nil _ hne
  have hm := List.mem_filter.mp hx
  exact ⟨x, hm.1, by simpa using hm.2⟩

/-- Claim C3 (amended): `find_candidate_files` returns exactly the set of
candidates whose overlap counter is at least `max 1 (⌊|Q| · 0.15⌋)` — Python
computes `max(1, int(len(q) * 0.15))`, a floor (plus a lower bound of 1), not
the ceiling the claim states. -/
theorem find_candidate_files_spec (inv : Int → Finset String)
    (q : List Fingerprint) (c : String) :
    c ∈ find_candidate_files inv q ↔
      max 1 (3 * q.length / 20) ≤ overlap_count inv q c := by
  by_cases hq : q = []
  · subst hq
    simp [find_candidate_files, overlap_count]
  · rw [find_candidate_files, if_neg hq, Finset.mem_filter]
    simp only [min_overlap]
    constructor
    · rintro ⟨-, h⟩; exact h
    · intro h
      exact ⟨mem_all_candidates_of_overlap inv q c (le_trans (le_max_left 1 _) h), h⟩

/-- Counterexample to claim C3 as stated: on a query of 10 fingerprints the
code admits the candidate `"f7"` with overlap counter 1, although
`⌈10 · 0.15⌉ = 2`; the threshold implemented is `max(1, int(10 · 0.15)) = 1`. -/
theorem find_candidate_files_not_ceil :
    "f7" ∈ find_candidate_files exInv exQuery ∧
    ((overlap_count exInv exQuery "f7" : ℤ) < ⌈(exQuery.length : ℚ) * (15 / 100)⌉) := by
  constructor
  · decide
  · have h1 : overlap_count exInv exQuery "f7" = 1 := rfl
    have h2 : exQuery.length = 10 := rfl
    rw [h1, h2]
    have h3 : (⌈((10 : ℕ) : ℚ) * (15 / 100)⌉ : ℤ) = 2 := by
      rw [show (((10 : ℕ) : ℚ)) * (15 / 100) = 3 / 2 by norm_num, Int.ceil_eq_iff]
      constructor <;> norm_num
    rw [h3]
    norm_num

/-- Counterexample to claim C5 as stated: `exM2` FAILS the adjacency gap test
on side B (`file2`: it starts 100 lines below `exM1`), yet the merge extends
`exM1` by `exM2` because only side A (`file1`) is consulted; the merged
endpoints are the componentwise max on both sides. -/
theorem merge_checks_side_a_only :
    fits_gap 1 5 exM1.file2 exM2.file2 = false ∧
    merge_adjacent_matches [exM1, exM2] = [⟨⟨0, 0, 0, 20⟩, ⟨0, 0, 100, 10⟩⟩] := by
  constructor
  · decide
  · decide

/-- Claim C5 (amended): on a sorted pair of region matches the merge extends
the previous region into the current one iff the adjacency gap condition
(`start_line ≤ last.end_line + 1` and `start_col − last.end_col ≤ 5`) holds on
side A (`file1`) ALONE — side B is never consulted — and the merged region's
endpoints are the componentwise max on both sides (`extend_match`). -/
theorem merge_pair_spec (m1 m2 : RMatch) (h : match_le m1 m2 = true) :
    merge_adjacent_matches [m1, m2] =
      if fits_gap 1 5 m1.file1 m2.file1 then [extend_match m1 m2] else [m1, m2] := by
  by_cases hf : fits_gap 1 5 m1.file1 m2.file1 = true <;>
    simp [merge_adjacent_matches, sort_matches, insert_sorted, merge_step, h, hf]

/-- Witness for the amended C5 at the concrete sorted pair `exM1, exM2`. -/
theorem merge_pair_spec_witness :
    match_le exM1 exM2 = true ∧
    merge_adjacent_matches [exM1, exM2] =
      if fits_gap 1 5 exM1.file1 exM2.file1 then [extend_match exM1 exM2]
      else [exM1, exM2] :=
  ⟨by decide, merge_pair_spec exM1 exM2 (by decide)⟩

/-- Claim C4 (amended): the in-process analyzer assembles region matches only
when `ast_sim ≥ τ_ast = 0.30` (below it the match list is empty), but the
worker's Redis path (`process_pair`) gates match assembly at `ast_sim ≥ 0.15`;
below each path's own gate the match list is empty. -/
theorem match_assembly_gates :
    (∀ (stable_hash : String → Nat) (t1 t2 : List Token) (a1 a2 : List Nat),
        (analyze_plagiarism stable_hash t1 t2 a1 a2).1 < 30 / 100 →
        (analyze_plagiarism stable_hash t1 t2 a1 a2).2 = []) ∧
    (∀ (astA astB : List Nat) (fpsA fpsB : List Fingerprint),
        (process_pair_result astA astB fpsA fpsB).1 < 15 / 100 →
        (process_pair_result astA astB fpsA fpsB).2 = []) := by
  constructor
  · intro stable_hash t1 t2 a1 a2 h
    simp only [analyze_plagiarism] at h ⊢
    by_cases h1 : token_similarity
        (winnow_fingerprints (compute_fingerprints stable_hash 6 257 (10 ^ 9 + 7) t1) 5)
        (winnow_fingerprints (compute_fingerprints stable_hash 6 257 (10 ^ 9 + 7) t2) 5)
        < 15 / 100
    · rw [if_pos h1]
    · rw [if_neg h1] at h ⊢
      by_cases h2 : ast_similarity a1 a2 < 30 / 100
      · rw [if_pos h2]
      · rw [if_neg h2] at h
        exact absurd h h2
  · intro astA astB fpsA fpsB h
    simp only [process_pair_result] at h ⊢
    by_cases h1 : (15 : ℚ) / 100 ≤ calculate_ast_similarity astA astB
    · rw [if_pos h1] at h
      exact absurd h (not_lt.mpr (le_trans h1 (by norm_num)))
    · rw [if_neg h1]

/-- Witness for the amended C4: the analyzer part at an empty pair, the worker
part at disjoint singleton AST lists. -/
theorem match_assembly_gates_witness :
    ((analyze_plagiarism (fun s => s.length) [] [] [1] [2]).1 < 30 / 100 ∧
     (analyze_plagiarism (fun s => s.length) [] [] [1] [2]).2 = []) ∧
    ((process_pair_result [1] [2] [] []).1 < 15 / 100 ∧
     (process_pair_result [1] [2] [] []).2 = []) := by
  have e0 : analyze_plagiarism (fun s : String => s.length) [] [] [1] [2] = (0, []) := by
    simp only [analyze_plagiarism]
    rw [if_pos (show token_similarity
      (winnow_fingerprints (compute_fingerprints (fun s : String => s.length) 6 257 (10 ^ 9 + 7) []) 5)
      (winnow_fingerprints (compute_fingerprints (fun s : String => s.length) 6 257 (10 ^ 9 + 7) []) 5)
      < 15 / 100 by rw [show token_similarity
        (winnow_fingerprints (compute_fingerprints (fun s : String => s.length) 6 257 (10 ^ 9 + 7) []) 5)
        (winnow_fingerprints (compute_fingerprints (fun s : String => s.length) 6 257 (10 ^ 9 + 7) []) 5)
        = 0 from rfl]; norm_num)]
  have ha : (analyze_plagiarism (fun s : String => s.length) [] [] [1] [2]).1 < 30 / 100 := by
    rw [e0]; norm_num
  have hs : calculate_ast_similarity [1] [2] = 0 := by
    have hfi : (([1] : List ℕ).toFinset ∩ ([2] : List ℕ).toFinset).card = 0 := rfl
    simp only [calculate_ast_similarity, hfi]
    rw [if_neg (show ¬(([1] : List ℕ) = [] ∨ ([2] : List ℕ) = []) by simp)]
    simp
  have e1 : process_pair_result [1] [2] [] [] = (0, []) := by
    simp only [process_pair_result, hs]
    rw [if_neg (show ¬((15 : ℚ) / 100 ≤ 0) by norm_num)]
  have hb : (process_pair_result [1] [2] [] []).1 < 15 / 100 := by
    rw [e1]; norm_num
  exact ⟨⟨ha, match_assembly_gates.1 _ [] [] [1] [2] ha⟩,
    ⟨hb, match_assembly_gates.2 [1] [2] [] [] hb⟩⟩

/-- Counterexample to claim C4 as stated: on the worker path an AST similarity
of `3/17 < 0.30` still yields a non-empty match list, because `process_pair`
assembles matches at `ast_similarity ≥ 0.15` (worker.py line 344). -/
theorem worker_matches_below_ast_threshold :
    (process_pair_result [1, 2, 3, 4, 5, 6, 7, 8, 9, 10]
        [1, 2, 3, 11, 12, 13, 14, 15, 16, 17]
        [⟨42, (0, 0), (0, 5)⟩] [⟨42, (0, 0), (0, 5)⟩]).1 < 30 / 100 ∧
    (process_pair_result [1, 2, 3, 4, 5, 6, 7, 8, 9, 10]
        [1, 2, 3, 11, 12, 13, 14, 15, 16, 17]
        [⟨42, (0, 0), (0, 5)⟩] [⟨42, (0, 0), (0, 5)⟩]).2 ≠ [] := by
  have hs : calculate_ast_similarity [1, 2, 3, 4, 5, 6, 7, 8, 9, 10]
      [1, 2, 3, 11, 12, 13, 14, 15, 16, 17] = 3 / 17 := by
    have hfi : (([1, 2, 3, 4, 5, 6, 7, 8, 9, 10] : List ℕ).toFinset ∩
        ([1, 2, 3, 11, 12, 13, 14, 15, 16, 17] : List ℕ).toFinset).card = 3 := rfl
    have hfu : (([1, 2, 3, 4, 5, 6, 7, 8, 9, 10] : List ℕ).toFinset ∪
        ([1, 2, 3, 11, 12, 13, 14, 15, 16, 17] : List ℕ).toFinset).card = 17 := rfl
    simp only [calculate_ast_similarity, hfi, hfu]
    rw [if_neg (show ¬(([1, 2, 3, 4, 5, 6, 7, 8, 9, 10] : List ℕ) = [] ∨
      ([1, 2, 3, 11, 12, 13, 14, 15, 16, 17] : List ℕ) = []) by simp)]
    norm_num
  have hgate : (15 : ℚ) / 100 ≤ 3 / 17 := by norm_num
  constructor
  · simp only [process_pair_result, hs]
    rw [if_pos hgate]
    norm_num
  · simp only [process_pair_result, hs]
    rw [if_pos hgate]
    decide

theorem fold_min_le_init (l : List Fingerprint) (x : Int) :
    l.foldl (fun v b => min v b.hash) x ≤ x := by
  induction l generalizing x with
  | nil => exact le_refl x
  | cons c t ih => exact le_trans (ih (min x c.hash)) (min_le_left _ _)

theorem fold_pick_eq_filter_head (xs : List Fingerprint) (a : Fingerprint) :
    xs.foldl (fun p b => if b.hash < p.hash then b else p) a =
      ((a :: xs).filter
        (fun fp => fp.hash = xs.foldl (fun v b => min v b.hash) a.hash)).headD dummyFp := by
  induction xs generalizing a with
  | nil => simp
  | cons b xs ih =>
    have hpick : ((if b.hash < a.hash then b else a) : Fingerprint).hash
        = min a.hash b.hash := by
      by_cases hlt : b.hash < a.hash
      · rw [if_pos hlt, min_eq_right (le_of_lt hlt)]
      · rw [if_neg hlt, min_eq_left (le_of_not_lt hlt)]
    simp only [List.foldl_cons]
    rw [ih, hpick]
    have hMle : xs.foldl (fun v b => min v b.hash) (min a.hash b.hash)
        ≤ min a.hash b.hash := fold_min_le_init xs _
    by_cases hlt : b.hash < a.hash
    · have hane : a.hash ≠ xs.foldl (fun v b => min v b.hash) (min a.hash b.hash) :=
        ne_of_gt (lt_of_le_of_lt (le_trans hMle (min_le_right _ _)) hlt)
      rw [if_pos hlt]
      conv_rhs => rw [List.filter_cons_of_neg
        (by simp only [decide_eq_true_eq]; exact hane)]
    · rw [if_neg hlt]
      by_cases ha : a.hash = xs.foldl (fun v b => min v b.hash) (min a.hash b.hash)
      · rw [List.filter_cons_of_pos (by simp only [decide_eq_true_eq]; exact ha),
          List.filter_cons_of_pos (by simp only [decide_eq_true_eq]; exact ha),
          List.headD_cons, List.headD_cons]
      · have hMlt : xs.foldl (fun v b => min v b.hash) (min a.hash b.hash) < a.hash :=
          lt_of_le_of_ne (le_trans hMle (min_le_left _ _)) (fun hc => ha hc.symm)
        have hb : b.hash ≠ xs.foldl (fun v b => min v b.hash) (min a.hash b.hash) :=
          ne_of_gt (lt_of_lt_of_le hMlt (le_of_not_lt hlt))
        rw [List.filter_cons_of_neg (by simp only [decide_eq_true_eq]; exact ha),
          List.filter_cons_of_neg (by simp only [decide_eq_true_eq]; exact ha),
          List.filter_cons_of_neg (by simp only [decide_eq_true_eq]; exact hb)]

theorem min_by_hash_eq_leftmost (w : List Fingerprint) (hw : w ≠ []) :
    min_by_hash w = leftmost_min w := by
  obtain ⟨a, xs, rfl⟩ := List.exists_cons_of_ne_nil hw
  have hmin : window_min_hash (a :: xs) = xs.foldl (fun v b => min v b.hash) a.hash := by
    rw [window_min_hash, List.map_cons, List.min?_cons', Option.getD_some, List.foldl_map]
  simp only [min_by_hash, leftmost_min, List.headD_cons, List.foldl_cons, ite_self, hmin]
  exact fold_pick_eq_filter_head xs a

/-- Claim C1 (amended): for window size `W = 5`, the winnowing step emits, for
each sliding window, the minimum hash with tie-break LEFTMOST-of-equal-minima
(Python's `min` keeps the first minimal element), and emits it only if its hash
differs from the last emitted fingerprint's hash, otherwise the window is
skipped. -/
theorem winnow_fingerprints_leftmost_tie_break (fps : List Fingerprint) :
    winnow_fingerprints fps 5 = winnow_with leftmost_min fps 5 := by
  simp only [winnow_fingerprints, winnow_with]
  refine List.foldl_ext _ _ [] ?_
  intro acc i hi
  have hi5 : i < fps.length + 1 - 5 := List.mem_range.mp hi
  have hlen : 0 < ((fps.drop i).take 5).length := by
    rw [List.length_take, List.length_drop]
    omega
  rw [min_by_hash_eq_leftmost ((fps.drop i).take 5) (List.length_pos.mp hlen)]

/-- Counterexample to claim C1 as stated: one window of five fingerprints that
all carry the minimal hash `7`.  The code emits the LEFTMOST of the equal
minima (anchor at line 0), not the rightmost (anchor at line 4) that the
claim's tie-break prescribes. -/
theorem winnow_not_rightmost_tie_break :
    winnow_fingerprints exTies 5 = [⟨7, (0, 0), (0, 1)⟩] ∧
    winnow_with rightmost_min exTies 5 = [⟨7, (4, 0), (4, 1)⟩] ∧
    winnow_fingerprints exTies 5 ≠ winnow_with rightmost_min exTies 5 :=
  ⟨by decide, by decide, by decide⟩

theorem roll_nil (stable_hash : String → Nat) (base m power h : Int)
    (old : List Token) : roll stable_hash base m power h old [] = [] := by
  cases old <;> rfl

theorem roll_cons (stable_hash : String → Nat) (base m power h : Int)
    (o t : Token) (os ts : List Token) :
    roll stable_hash base m power h (o :: os) (t :: ts) =
      { hash := ((h - (stable_hash o.typ : Int) * power) % m * base
          + (stable_hash t.typ : Int)) % m,
        start := (os.headD dummyToken).startP, stop := t.endP }
      :: roll stable_hash base m power
          (((h - (stable_hash o.typ : Int) * power) % m * base
            + (stable_hash t.typ : Int)) % m) os ts := rfl

theorem horner_shift (stable_hash : String → Nat) (base : Int) (w : List Token)
    (a : Int) :
    w.foldl (fun h t => h * base + (stable_hash t.typ : Int)) a
      = a * base ^ w.length
        + w.foldl (fun h t => h * base + (stable_hash t.typ : Int)) 0 := by
  induction w generalizing a with
  | nil => simp
  | cons t w ih =>
    simp only [List.foldl_cons, List.length_cons]
    rw [ih]
    conv_rhs => rw [ih]
    ring

theorem poly_horner_cons (stable_hash : String → Nat) (base : Int)
    (o : Token) (mid : List Token) :
    poly_horner stable_hash base (o :: mid)
      = (stable_hash o.typ : Int) * base ^ mid.length
        + poly_horner stable_hash base mid := by
  simp only [poly_horner, List.foldl_cons]
  rw [horner_shift]
  ring

theorem poly_horner_snoc (stable_hash : String → Nat) (base : Int)
    (mid : List Token) (t : Token) :
    poly_horner stable_hash base (mid ++ [t])
      = poly_horner stable_hash base mid * base + (stable_hash t.typ : Int) := by
  simp [poly_horner, List.foldl_append]

theorem foldl_mod_eq (stable_hash : String → Nat) (base m : Int) (hm : 0 < m)
    (w : List Token) (a : Int) (ha : 0 ≤ a) (ha2 : a < m) :
    w.foldl (fun h t => (h * base + (stable_hash t.typ : Int)) % m) a
      = (w.foldl (fun h t => h * base + (stable_hash t.typ : Int)) a) % m := by
  induction w generalizing a with
  | nil => simp [Int.emod_eq_of_lt ha ha2]
  | cons t w ih =>
    simp only [List.foldl_cons]
    rw [ih _ (Int.emod_nonneg _ (ne_of_gt hm)) (Int.emod_lt_of_pos _ hm)]
    rw [horner_shift]
    conv_rhs => rw [horner_shift]
    have e : ((a * base + (stable_hash t.typ : Int)) % m)
        ≡ a * base + (stable_hash t.typ : Int) [ZMOD m] :=
      Int.emod_emod_of_dvd _ dvd_rfl
    exact (e.mul_right _).add_right _

theorem getD_drop_head (tokens : List Token) (i : Nat) (hi : i < tokens.length) :
    (tokens.drop i).headD dummyToken = tokens.getD i dummyToken := by
  rw [List.drop_eq_getElem_cons hi, List.headD_cons, List.getD_eq_getElem _ _ hi]

theorem slice_cons (tokens : List Token) (j k' : Nat) (h : j < tokens.length) :
    (tokens.drop j).take (k' + 1)
      = tokens.getD j dummyToken :: (tokens.drop (j + 1)).take k' := by
  rw [List.drop_eq_getElem_cons h, List.take_cons (Nat.succ_pos k'),
    List.getD_eq_getElem _ _ h]
  simp

theorem slice_snoc (tokens : List Token) (j k' : Nat) (h : j + k' < tokens.length) :
    (tokens.drop j).take (k' + 1)
      = (tokens.drop j).take k' ++ [tokens.getD (j + k') dummyToken] := by
  rw [List.take_succ]
  congr 1
  rw [List.getElem?_drop, List.getElem?_eq_getElem h, List.getD_eq_getElem _ _ h]
  rfl

theorem drop_cons_getD (l : List Token) (i : Nat) (h : i < l.length) :
    l.drop i = l.getD i dummyToken :: l.drop (i + 1) := by
  rw [List.drop_eq_getElem_cons h, List.getD_eq_getElem _ _ h]

/-- One rolling step: subtracting the outgoing digit (times the cached
`base^k' % m` power) and shifting in the incoming one agrees, mod `m`, with
the direct polynomial of the shifted window. -/
theorem step_hash (base m : Int) (k' : Nat) (sj st P0 h : Int)
    (hh : h = (sj * base ^ k' + P0) % m) :
    ((h - sj * (base ^ k' % m)) % m * base + st) % m = (P0 * base + st) % m := by
  have e1 : h ≡ sj * base ^ k' + P0 [ZMOD m] := by
    rw [hh]; exact Int.emod_emod_of_dvd _ dvd_rfl
  have e2 : (base ^ k' % m : Int) ≡ base ^ k' [ZMOD m] :=
    Int.emod_emod_of_dvd _ dvd_rfl
  have e3 : (h - sj * (base ^ k' % m)) % m ≡ P0 [ZMOD m] := by
    calc (h - sj * (base ^ k' % m)) % m
        ≡ h - sj * (base ^ k' % m) [ZMOD m] := Int.emod_emod_of_dvd _ dvd_rfl
      _ ≡ sj * base ^ k' + P0 - sj * base ^ k' [ZMOD m] := e1.sub (e2.mul_left sj)
      _ = P0 := by ring
  exact (e3.mul_right base).add_right st

/-- Correctness of the rolling loop of `compute_fingerprints`: started at
window `j` with the correct hash, it emits exactly the direct window
polynomials (mod `m`) and anchors for windows `j+1 .. n-k`. -/
theorem roll_spec (stable_hash : String → Nat) (base m : Int) (k' : Nat)
    (tokens : List Token) :
    ∀ (fuel j : Nat) (h : Int),
      tokens.length - (j + (k' + 1)) = fuel →
      j + (k' + 1) ≤ tokens.length →
      h = poly_horner stable_hash base ((tokens.drop j).take (k' + 1)) % m →
      roll stable_hash base m (base ^ k' % m) h (tokens.drop j)
          (tokens.drop (j + (k' + 1))) =
        (List.range' (j + 1) (tokens.length - (j + (k' + 1)))).map (fun i =>
          { hash := poly_horner stable_hash base ((tokens.drop i).take (k' + 1)) % m,
            start := (tokens.getD i dummyToken).startP,
            stop := (tokens.getD (i + k') dummyToken).endP }) := by
  intro fuel
  induction fuel with
  | zero =>
    intro j h hfuel hjk hh
    rw [show tokens.drop (j + (k' + 1)) = [] from List.drop_eq_nil_of_le (by omega),
      roll_nil, hfuel]
    rfl
  | succ s ihs =>
    intro j h hfuel hjk hh
    have hjlt : j + (k' + 1) < tokens.length := by omega
    have hmidlen : ((tokens.drop (j + 1)).take k').length = k' := by
      rw [List.length_take, List.length_drop]
      omega
    have hsliceJ : (tokens.drop j).take (k' + 1)
        = tokens.getD j dummyToken :: (tokens.drop (j + 1)).take k' :=
      slice_cons tokens j k' (by omega)
    have hsliceJ1 : (tokens.drop (j + 1)).take (k' + 1)
        = (tokens.drop (j + 1)).take k' ++ [tokens.getD ((j + 1) + k') dummyToken] :=
      slice_snoc tokens (j + 1) k' (by omega)
    have hh' : h = ((stable_hash (tokens.getD j dummyToken).typ : Int) * base ^ k'
        + poly_horner stable_hash base ((tokens.drop (j + 1)).take k')) % m := by
      rw [hh, hsliceJ, poly_horner_cons, hmidlen]
    have hidx : (j + 1) + k' = j + (k' + 1) := by omega
    have hH2 : ((h - (stable_hash (tokens.getD j dummyToken).typ : Int)
          * (base ^ k' % m)) % m * base
          + (stable_hash (tokens.getD (j + (k' + 1)) dummyToken).typ : Int)) % m
        = poly_horner stable_hash base ((tokens.drop (j + 1)).take (k' + 1)) % m := by
      rw [hsliceJ1, poly_horner_snoc, hidx]
      exact step_hash base m k' _ _ _ h hh'
    rw [drop_cons_getD tokens j (by omega), drop_cons_getD tokens (j + (k' + 1)) hjlt,
      roll_cons, hfuel, List.range'_succ, List.map_cons]
    congr 1
    · rw [hH2, getD_drop_head tokens (j + 1) (by omega), hidx]
    · rw [hH2, show j + (k' + 1) + 1 = (j + 1) + (k' + 1) by omega,
        show s = tokens.length - ((j + 1) + (k' + 1)) by omega]
      exact ihs (j + 1) _ (by omega) (by omega) rfl

/-- `compute_fingerprints` produces exactly one fingerprint per window, whose
hash is the direct window polynomial reduced mod `m`, anchored at the window's
first token start and last token end. -/
theorem compute_fingerprints_eq (stable_hash : String → Nat) (k' : Nat)
    (base m : Int) (hm : 0 < m) (tokens : List Token) :
    compute_fingerprints stable_hash (k' + 1) base m tokens =
      (List.range (tokens.length + 1 - (k' + 1))).map (fun i =>
        { hash := poly_horner stable_hash base ((tokens.drop i).take (k' + 1)) % m,
          start := (tokens.getD i dummyToken).startP,
          stop := (tokens.getD (i + k') dummyToken).endP }) := by
  by_cases hlen : tokens.length < k' + 1
  · simp only [compute_fingerprints]
    rw [if_pos hlen, show tokens.length + 1 - (k' + 1) = 0 by omega]
    rfl
  · push_neg at hlen
    have h0e : (tokens.take (k' + 1)).foldl
        (fun h t => (h * base + (stable_hash t.typ : Int)) % m) 0
        = poly_horner stable_hash base (tokens.take (k' + 1)) % m := by
      simp only [poly_horner]
      exact foldl_mod_eq stable_hash base m hm _ 0 le_rfl hm
    have hhead := getD_drop_head tokens 0 (by omega)
    rw [List.drop_zero] at hhead
    have hr := roll_spec stable_hash base m k' tokens (tokens.length - (0 + (k' + 1))) 0
      (poly_horner stable_hash base ((tokens.drop 0).take (k' + 1)) % m) rfl
      (by omega) rfl
    simp only [Nat.zero_add, List.drop_zero] at hr
    simp only [compute_fingerprints]
    rw [if_neg (not_lt.mpr hlen),
      show tokens.length + 1 - (k' + 1) = (tokens.length - (k' + 1)) + 1 by omega,
      List.range_eq_range', List.range'_succ, List.map_cons]
    simp only [Nat.zero_add, List.drop_zero]
    rw [show (k' + 1) - 1 = k' by omega, hhead, h0e]
    exact List.cons_eq_cons.mpr ⟨rfl, hr⟩

/-- The Horner form of a window slice equals the claim's power-sum form. -/
theorem poly_horner_eq_window_sum (stable_hash : String → Nat) (base : Int)
    (tokens : List Token) :
    ∀ (k i : Nat), i + k ≤ tokens.length →
      poly_horner stable_hash base ((tokens.drop i).take k)
        = window_sum stable_hash base tokens i k := by
  intro k
  induction k with
  | zero => intro i hi; simp [poly_horner, window_sum]
  | succ k ih =>
    intro i hi
    rw [slice_cons tokens i k (by omega), poly_horner_cons,
      show ((tokens.drop (i + 1)).take k).length = k by
        rw [List.length_take, List.length_drop]; omega,
      ih (i + 1) (by omega)]
    simp only [window_sum]
    rw [Finset.sum_range_succ', add_comm]
    congr 1
    refine Finset.sum_congr rfl (fun j hj => ?_)
    rw [show i + (j + 1) = (i + 1) + j by omega,
      show k + 1 - 1 - (j + 1) = k - 1 - j by omega]

/-- Claim C6: for the defaults `K = 6`, `base = 257`, `M = 10^9 + 7`,
`compute_fingerprints` returns one fingerprint per window `i`, whose hash is
the direct polynomial hash `(Σ_{j<6} σ(t_{i+j}) · 257^(5-j)) mod M` of that
window, anchored at the start of `t_i` and the end of `t_{i+5}`. -/
theorem compute_fingerprints_rolling_spec (stable_hash : String → Nat)
    (tokens : List Token) :
    compute_fingerprints stable_hash 6 257 (10 ^ 9 + 7) tokens =
      (List.range (tokens.length + 1 - 6)).map (fun i =>
        { hash := window_sum stable_hash 257 tokens i 6 % (10 ^ 9 + 7),
          start := (tokens.getD i dummyToken).startP,
          stop := (tokens.getD (i + 5) dummyToken).endP }) := by
  rw [show (6 : Nat) = 5 + 1 from rfl,
    compute_fingerprints_eq stable_hash 5 257 (10 ^ 9 + 7) (by norm_num) tokens]
  apply List.map_congr_left
  intro i hi
  have hik : i + (5 + 1) ≤ tokens.length := by
    have := List.mem_range.mp hi
    omega
  rw [poly_horner_eq_window_sum stable_hash 257 tokens (5 + 1) i hik]

theorem foldl_ne_nil_of_step {α β : Type} (f : List α → β → List α)
    (hf : ∀ acc b, f acc b ≠ []) (l : List β) (acc : List α)
    (h : acc ≠ [] ∨ l ≠ []) : l.foldl f acc ≠ [] := by
  induction l generalizing acc with
  | nil => simpa using h.resolve_right (by simp)
  | cons b t ih =>
    rw [List.foldl_cons]
    exact ih _ (Or.inl (hf acc b))

theorem winnow_ne_nil (fps : List Fingerprint) (h5 : 5 ≤ fps.length) :
    winnow_fingerprints fps 5 ≠ [] := by
  simp only [winnow_fingerprints]
  apply foldl_ne_nil_of_step
  · intro acc i
    rcases hacc : acc.getLast? with - | last
    · simp [hacc]
    · simp only [hacc]
      split_ifs
      · intro hc
        subst hc
        simp at hacc
      · simp
  · right
    simp only [ne_eq, List.range_eq_nil]
    omega

theorem hash_count_eq_count (fps : List Fingerprint) (h : Int) :
    hash_count fps h = (fps.map (fun fp => fp.hash)).count h := by
  induction fps with
  | nil => rfl
  | cons a t ih =>
    simp only [hash_count, List.filter_cons, List.map_cons, List.count_cons] at *
    by_cases hh : a.hash = h
    · simp [hh, ih]
    · simp [hh, ih]

theorem hash_keys_ne_nil (fps : List Fingerprint) (hne : fps ≠ []) :
    hash_keys fps ≠ [] := by
  rw [hash_keys]
  simp [List.dedup_eq_nil, hne]

theorem filter_keys_self (fps : List Fingerprint) :
    (hash_keys fps).filter (fun h => h ∈ hash_keys fps) = hash_keys fps :=
  List.filter_eq_self.mpr (fun a ha => by simpa using ha)

theorem sum_hash_counts (fps : List Fingerprint) :
    ((hash_keys fps).map (hash_count fps)).sum = fps.length := by
  have h1 : (hash_keys fps).map (hash_count fps)
      = (fps.map (fun fp => fp.hash)).dedup.map
          (fun x => (fps.map (fun fp => fp.hash)).count x) := by
    rw [hash_keys]
    exact List.map_congr_left (fun a _ => hash_count_eq_count fps a)
  rw [h1, List.sum_map_count_dedup_eq_length, List.length_map]

theorem token_similarity_self (fps : List Fingerprint) (hne : fps ≠ []) :
    token_similarity fps fps = 1 := by
  have hkeys := hash_keys_ne_nil fps hne
  simp only [token_similarity, filter_keys_self]
  rw [if_neg hkeys, sum_hash_counts]
  have hlen : (0 : ℚ) < (fps.length : ℚ) := by
    have : 0 < fps.length := List.length_pos.mpr hne
    exact_mod_cast this
  rw [div_self (by linarith)]

theorem ast_similarity_self (a : List Nat) (hne : a ≠ []) :
    ast_similarity a a = 1 := by
  simp only [ast_similarity, multiset_inter_self, multiset_union_self, Multiset.coe_card]
  rw [if_neg (by simpa using hne)]
  have hlen : (0 : ℚ) < (a.length : ℚ) := by
    have : 0 < a.length := List.length_pos.mpr hne
    exact_mod_cast this
  rw [div_self (by linarith)]

theorem find_matching_regions_self_ne_nil (fps : List Fingerprint)
    (hne : fps ≠ []) : find_matching_regions fps fps ≠ [] := by
  intro hcontra
  rw [find_matching_regions, List.flatMap_eq_nil_iff] at hcontra
  obtain ⟨hh, hmem⟩ := List.exists_mem_of_ne_nil _ (hash_keys_ne_nil fps hne)
  have hmem' : hh ∈ (hash_keys fps).filter (fun h => h ∈ hash_keys fps) := by
    rw [filter_keys_self]
    exact hmem
  have hbucket : fps.filter (fun fp => fp.hash = hh) ≠ [] := by
    rw [hash_keys] at hmem
    obtain ⟨fp, hfp, hfph⟩ := List.mem_map.mp (List.mem_dedup.mp hmem)
    exact List.ne_nil_of_mem (List.mem_filter.mpr ⟨hfp, by simpa using hfph⟩)
  have hz := hcontra hh hmem'
  rw [List.zipWith_eq_nil_iff] at hz
  rcases hz with h | h <;> exact hbucket h

theorem insert_sorted_length (m : RMatch) (l : List RMatch) :
    (insert_sorted m l).length = l.length + 1 := by
  induction l with
  | nil => rfl
  | cons x xs ih =>
    rw [insert_sorted]
    split_ifs
    · simp
    · simp [ih]

theorem sort_matches_length (l : List RMatch) :
    (sort_matches l).length = l.length := by
  induction l with
  | nil => rfl
  | cons x xs ih => rw [sort_matches, insert_sorted_length, ih, List.length_cons]

theorem merge_ne_nil (ms : List RMatch) (hne : ms ≠ []) :
    merge_adjacent_matches ms ≠ [] := by
  have hs : sort_matches ms ≠ [] := by
    intro hc
    have := sort_matches_length ms
    rw [hc] at this
    exact hne (List.length_eq_zero.mp this.symm)
  obtain ⟨first, rest, hfr⟩ := List.exists_cons_of_ne_nil hs
  simp only [merge_adjacent_matches, hfr]
  rw [ne_eq, List.reverse_eq_nil_iff]
  apply foldl_ne_nil_of_step
  · intro acc m
    rcases acc with - | ⟨last, accrest⟩
    · simp [merge_step]
    · simp only [merge_step]
      split_ifs <;> simp
  · left
    simp

/-- Claim C8 (amended): comparing a file with itself yields `ast_sim = 1` and a
non-empty match list, PROVIDED the file has at least `W + K − 1 = 10` tokens
(so that winnowing emits at least one fingerprint) and a non-empty AST hash
list; files below these bounds are rejected by the token gate and return
`(0, [])` even against themselves. -/
theorem self_compare_spec (stable_hash : String → Nat) (tokens : List Token)
    (ast : List Nat) (htok : 10 ≤ tokens.length) (hast : ast ≠ []) :
    (analyze_plagiarism stable_hash tokens tokens ast ast).1 = 1 ∧
    (analyze_plagiarism stable_hash tokens tokens ast ast).2 ≠ [] := by
  have hlen : (compute_fingerprints stable_hash 6 257 (10 ^ 9 + 7) tokens).length
      = tokens.length + 1 - 6 := by
    rw [show (6 : Nat) = 5 + 1 from rfl,
      compute_fingerprints_eq stable_hash 5 257 (10 ^ 9 + 7) (by norm_num) tokens,
      List.length_map, List.length_range]
  have hWne : winnow_fingerprints
      (compute_fingerprints stable_hash 6 257 (10 ^ 9 + 7) tokens) 5 ≠ [] := by
    apply winnow_ne_nil
    omega
  have hresult : analyze_plagiarism stable_hash tokens tokens ast ast
      = (1, merge_adjacent_matches (find_matching_regions
          (winnow_fingerprints (compute_fingerprints stable_hash 6 257 (10 ^ 9 + 7) tokens) 5)
          (winnow_fingerprints (compute_fingerprints stable_hash 6 257 (10 ^ 9 + 7) tokens) 5))) := by
    simp only [analyze_plagiarism]
    rw [token_similarity_self _ hWne, if_neg (by norm_num : ¬(1 : ℚ) < 15 / 100),
      ast_similarity_self ast hast, if_neg (by norm_num : ¬(1 : ℚ) < 30 / 100)]
  constructor
  · rw [hresult]
  · rw [hresult]
    exact merge_ne_nil _ (find_matching_regions_self_ne_nil _ hWne)

/-- Witness for the amended C8 at a concrete ten-token stream. -/
theorem self_compare_spec_witness :
    10 ≤ exTokensTen.length ∧ ([1] : List Nat) ≠ [] ∧
    (analyze_plagiarism (fun s => s.length) exTokensTen exTokensTen [1] [1]).1 = 1 ∧
    (analyze_plagiarism (fun s => s.length) exTokensTen exTokensTen [1] [1]).2 ≠ [] :=
  ⟨by decide, by decide,
   (self_compare_spec (fun s => s.length) exTokensTen [1] (by decide) (by decide)).1,
   (self_compare_spec (fun s => s.length) exTokensTen [1] (by decide) (by decide)).2⟩

/-- Counterexample to claim C8 as stated: a NON-EMPTY one-token file compared
with itself yields similarity `0` (not `1.0`) and an empty match list, because
one token is below the `K = 6` window and the token gate rejects the pair. -/
theorem self_compare_small_file_zero :
    ([dummyToken] : List Token) ≠ [] ∧
    (analyze_plagiarism (fun s => s.length) [dummyToken] [dummyToken] [1] [1]).1 = 0 ∧
    (analyze_plagiarism (fun s => s.length) [dummyToken] [dummyToken] [1] [1]).2 = [] := by
  have e : analyze_plagiarism (fun s : String => s.length) [dummyToken] [dummyToken] [1] [1]
      = (0, []) := by
    simp only [analyze_plagiarism]
    rw [if_pos (show token_similarity
      (winnow_fingerprints
        (compute_fingerprints (fun s : String => s.length) 6 257 (10 ^ 9 + 7) [dummyToken]) 5)
      (winnow_fingerprints
        (compute_fingerprints (fun s : String => s.length) 6 257 (10 ^ 9 + 7) [dummyToken]) 5)
      < 15 / 100 by rw [show token_similarity
        (winnow_fingerprints
          (compute_fingerprints (fun s : String => s.length) 6 257 (10 ^ 9 + 7) [dummyToken]) 5)
        (winnow_fingerprints
          (compute_fingerprints (fun s : String => s.length) 6 257 (10 ^ 9 + 7) [dummyToken]) 5)
        = 0 from rfl]; norm_num)]
  exact ⟨by simp, by rw [e], by rw [e]⟩

end Plagiarism
